import Mathlib

/-!
Verification of the sensor-to-server delivery pipeline
(`internet-monitoring/pipeline`): a shallow embedding in Lean of the
chunker, the durable sensor queue's window peek, the sensor dispatcher's
ack handling, the wire-message envelope codec, the bearer-token compare,
and the server chunk store's deduplicating ingest, together with theorems
settling the spec's testable properties.

Modelling conventions:
* byte strings are `List Nat`;
* SHA-256, gzip-compress and gzip-decompress are opaque function
  parameters (`hash`, `compress`, `decompress`); no claim depends on
  their internals beyond the decompress-after-compress roundtrip, which
  is taken as an explicit hypothesis where needed;
* Python `float` time fields are carried as `Int`, `str | None` as
  `Option String`; fallible code returns `Except String`;
* SQLite tables are lists of row structures; the `with conn:`
  transaction of `ChunkStore.ingest` is modelled by running the body as
  a state-passing function and restoring the original state when the
  body throws (commit-or-rollback semantics).
-/

namespace Pipeline

/-- Bytes are modelled as lists of naturals (values 0..255 in the code). -/
abbrev Bytes := List Nat

/-! ### Chunker (`pipeline/common/chunking.py`) -/

/-- Constant `DEFAULT_CHUNK_SIZE = 128 * 1024` from `chunking.py`. -/
def DEFAULT_CHUNK_SIZE : Nat := 128 * 1024

/-- Constant `MIN_CHUNK_SIZE = 64 * 1024` from `chunking.py`. -/
def MIN_CHUNK_SIZE : Nat := 64 * 1024

/-- Constant `MAX_CHUNK_SIZE = 256 * 1024` from `chunking.py`. -/
def MAX_CHUNK_SIZE : Nat := 256 * 1024

/-- `EventChunk` dataclass from `chunking.py`: a chunk before it receives
a persistent sequence number. -/
structure EventChunk where
  eventId : String
  chunkIndex : Nat
  chunkCount : Nat
  compression : String
  payload : Bytes
  chunkHash : Bytes
  eventHash : Bytes
  logicalTimestampMs : Nat
  clockSkewMs : Int
  attributes : List (String × String)
deriving DecidableEq, Repr

/-- The slice `payload[index * cs : min(index * cs + cs, len(payload))]`
taken by iteration `index` of the `chunk_payload` loop. -/
def sliceAt (payload : Bytes) (cs index : Nat) : Bytes :=
  (payload.drop (index * cs)).take cs

/-- The `for index in range(chunk_total)` loop body of `chunk_payload`:
`fuel` counts the remaining iterations (`chunk_total - index`); an empty
slice breaks out of the loop. -/
def chunkLoop (hash compress : Bytes → Bytes) (payload : Bytes)
    (eventId : String) (cs : Nat) (compression : String)
    (eventHash : Bytes) (total ts : Nat) (skew : Int)
    (attrs : List (String × String)) : Nat → Nat → List EventChunk
  | _, 0 => []
  | index, fuel + 1 =>
    let slice := sliceAt payload cs index
    if slice.isEmpty then []
    else
      let compressed := if compression = "gzip" then compress slice else slice
      { eventId := eventId
        chunkIndex := index
        chunkCount := total
        compression := compression
        payload := compressed
        chunkHash := hash compressed
        eventHash := eventHash
        logicalTimestampMs := ts
        clockSkewMs := skew
        attributes := attrs } ::
        chunkLoop hash compress payload eventId cs compression eventHash
          total ts skew attrs (index + 1) fuel

/-- `chunk_payload` from `chunking.py`: validates `chunk_size` against
`[MIN_CHUNK_SIZE, MAX_CHUNK_SIZE]` and the compression codec, computes
`chunk_total = max(1, ceil(len / chunk_size))` and the event hash, then
runs the slicing loop.  `ValueError` is modelled as `Except.error`. -/
def chunk_payload (hash compress : Bytes → Bytes) (payload : Bytes)
    (eventId : String) (chunkSize : Nat) (compression : String)
    (ts : Nat) (skew : Int) (attrs : List (String × String)) :
    Except String (List EventChunk) :=
  if chunkSize < MIN_CHUNK_SIZE ∨ MAX_CHUNK_SIZE < chunkSize then
    Except.error "chunk_size out of supported range"
  else if compression ≠ "gzip" then
    Except.error "Unsupported compression codec"
  else
    let eventHash := hash payload
    let total := max 1 ((payload.length + chunkSize - 1) / chunkSize)
    Except.ok (chunkLoop hash compress payload eventId chunkSize compression
      eventHash total ts skew attrs 0 total)

/-- Decompression pass of `ChunkStore._assemble_event`: decompress each
row's payload in list order, failing on a non-gzip codec. -/
def decompressAll (decompress : Bytes → Bytes) :
    List EventChunk → Except String (List Bytes)
  | [] => Except.ok []
  | ch :: rest =>
    if ch.compression = "gzip" then
      match decompressAll decompress rest with
      | Except.ok parts => Except.ok (decompress ch.payload :: parts)
      | Except.error e => Except.error e
    else Except.error "unsupported compression"

/-- Assembly in the sense of `ChunkStore._assemble_event`, lifted to a
chunk list: order the chunks by `chunk_index` ascending (the SQL
`ORDER BY chunk_index ASC`), decompress each payload, concatenate. -/
def assembleChunks (decompress : Bytes → Bytes)
    (chunks : List EventChunk) : Except String Bytes :=
  match decompressAll decompress
      (chunks.insertionSort (fun a b => a.chunkIndex ≤ b.chunkIndex)) with
  | Except.ok parts => Except.ok parts.flatten
  | Except.error e => Except.error e

/-- Boolean success test for `Except` results. -/
def isOkE {α : Type} (x : Except String α) : Bool :=
  match x with
  | Except.ok _ => true
  | Except.error _ => false

/-! ### Chunker lemmas -/

theorem ceil_mul_ge (len cs : Nat) (hcs : 0 < cs) :
    len ≤ ((len + cs - 1) / cs) * cs := by
  rw [Nat.mul_comm]
  have h1 : cs * ((len + cs - 1) / cs) + (len + cs - 1) % cs = len + cs - 1 :=
    Nat.div_add_mod _ _
  have h2 : (len + cs - 1) % cs < cs := Nat.mod_lt _ hcs
  generalize cs * ((len + cs - 1) / cs) = m at h1 ⊢
  omega

theorem chunkLoop_eventHash (hash compress : Bytes → Bytes) (payload : Bytes)
    (eid : String) (cs : Nat) (comp : String) (eh : Bytes) (total ts : Nat)
    (skew : Int) (attrs : List (String × String)) :
    ∀ fuel index ch,
      ch ∈ chunkLoop hash compress payload eid cs comp eh total ts skew attrs
        index fuel → ch.eventHash = eh := by
  intro fuel
  induction fuel with
  | zero => intro index ch h; simp [chunkLoop] at h
  | succ n ih =>
    intro index ch h
    rw [chunkLoop] at h
    by_cases hs : (sliceAt payload cs index).isEmpty
    · simp [hs] at h
    · simp only [hs, if_false] at h
      rcases List.mem_cons.mp h with h' | h'
      · rw [h']
      · exact ih (index + 1) ch h'

theorem chunkLoop_compression (hash compress : Bytes → Bytes) (payload : Bytes)
    (eid : String) (cs : Nat) (comp : String) (eh : Bytes) (total ts : Nat)
    (skew : Int) (attrs : List (String × String)) :
    ∀ fuel index ch,
      ch ∈ chunkLoop hash compress payload eid cs comp eh total ts skew attrs
        index fuel → ch.compression = comp := by
  intro fuel
  induction fuel with
  | zero => intro index ch h; simp [chunkLoop] at h
  | succ n ih =>
    intro index ch h
    rw [chunkLoop] at h
    by_cases hs : (sliceAt payload cs index).isEmpty
    · simp [hs] at h
    · simp only [hs, if_false] at h
      rcases List.mem_cons.mp h with h' | h'
      · rw [h']
      · exact ih (index + 1) ch h'

theorem chunkLoop_index_ge (hash compress : Bytes → Bytes) (payload : Bytes)
    (eid : String) (cs : Nat) (comp : String) (eh : Bytes) (total ts : Nat)
    (skew : Int) (attrs : List (String × String)) :
    ∀ fuel index ch,
      ch ∈ chunkLoop hash compress payload eid cs comp eh total ts skew attrs
        index fuel → index ≤ ch.chunkIndex := by
  intro fuel
  induction fuel with
  | zero => intro index ch h; simp [chunkLoop] at h
  | succ n ih =>
    intro index ch h
    rw [chunkLoop] at h
    by_cases hs : (sliceAt payload cs index).isEmpty
    · simp [hs] at h
    · simp only [hs, if_false] at h
      rcases List.mem_cons.mp h with h' | h'
      · rw [h']
      · exact Nat.le_of_succ_le (ih (index + 1) ch h')

theorem chunkLoop_sorted (hash compress : Bytes → Bytes) (payload : Bytes)
    (eid : String) (cs : Nat) (comp : String) (eh : Bytes) (total ts : Nat)
    (skew : Int) (attrs : List (String × String)) :
    ∀ fuel index,
      (chunkLoop hash compress payload eid cs comp eh total ts skew attrs
        index fuel).Pairwise (fun a b => a.chunkIndex ≤ b.chunkIndex) := by
  intro fuel
  induction fuel with
  | zero => intro index; simp [chunkLoop]
  | succ n ih =>
    intro index
    rw [chunkLoop]
    by_cases hs : (sliceAt payload cs index).isEmpty
    · simp [hs]
    · simp only [hs, if_false]
      refine List.Pairwise.cons ?_ (ih (index + 1))
      intro ch hch
      exact Nat.le_of_succ_le
        (chunkLoop_index_ge hash compress payload eid cs comp eh total ts skew
          attrs n (index + 1) ch hch)

theorem chunkLoop_join (hash compress decompress : Bytes → Bytes)
    (payload : Bytes) (eid : String) (cs : Nat) (eh : Bytes) (total ts : Nat)
    (skew : Int) (attrs : List (String × String))
    (hrt : ∀ x, decompress (compress x) = x) (hcs : 0 < cs) :
    ∀ fuel index, payload.length ≤ (index + fuel) * cs →
      ((chunkLoop hash compress payload eid cs "gzip" eh total ts skew attrs
          index fuel).map (fun ch => decompress ch.payload)).flatten =
        payload.drop (index * cs) := by
  intro fuel
  induction fuel with
  | zero =>
    intro index h
    simp only [chunkLoop, List.map_nil, List.flatten_nil]
    exact (List.drop_eq_nil_of_le (by simpa using h)).symm
  | succ n ih =>
    intro index h
    rw [chunkLoop]
    by_cases hs : (sliceAt payload cs index).isEmpty
    · have hnil : payload.drop (index * cs) = [] := by
        rcases List.take_eq_nil_iff.mp (List.isEmpty_iff.mp hs) with h' | h'
        · omega
        · exact h'
      simp [hs, hnil]
    · rw [if_neg hs]
      simp only [List.map_cons, List.flatten_cons, eq_self_iff_true, if_true,
        hrt]
      have hrec := ih (index + 1) (by
        have : (index + 1 + n) * cs = (index + (n + 1)) * cs := by ring
        omega)
      rw [hrec]
      show sliceAt payload cs index ++ payload.drop ((index + 1) * cs) =
        payload.drop (index * cs)
      have hdd : payload.drop ((index + 1) * cs) =
          (payload.drop (index * cs)).drop cs := by
        rw [List.drop_drop]
        congr 1
        ring
      rw [hdd, sliceAt]
      exact List.take_append_drop cs (payload.drop (index * cs))

/-- Instance making `insertionSort` by `chunkIndex` well-behaved. -/
instance : IsTotal EventChunk (fun a b => a.chunkIndex ≤ b.chunkIndex) :=
  ⟨fun a b => Nat.le_total a.chunkIndex b.chunkIndex⟩

instance : IsTrans EventChunk (fun a b => a.chunkIndex ≤ b.chunkIndex) :=
  ⟨fun _ _ _ hab hbc => Nat.le_trans hab hbc⟩

theorem decompressAll_ok (decompress : Bytes → Bytes) :
    ∀ chunks : List EventChunk, (∀ ch ∈ chunks, ch.compression = "gzip") →
      decompressAll decompress chunks =
        Except.ok (chunks.map (fun ch => decompress ch.payload)) := by
  intro chunks
  induction chunks with
  | nil => intro _; rfl
  | cons ch rest ih =>
    intro h
    have hch : ch.compression = "gzip" := h ch (List.mem_cons_self ch rest)
    have hrest := ih (fun c hc => h c (List.mem_cons_of_mem ch hc))
    simp [decompressAll, hch, hrest]

/-! ### Claim theorems for the chunker -/

/-- C9: `chunk_payload` fails with an invalid-argument error exactly when
`chunk_size` lies outside the closed range 64 KiB to 256 KiB or when the
compression codec is anything other than `"gzip"`; for an in-range
`chunk_size` with gzip compression it succeeds. -/
theorem chunk_payload_valid_iff (hash compress : Bytes → Bytes)
    (payload : Bytes) (eid : String) (cs : Nat) (comp : String) (ts : Nat)
    (skew : Int) (attrs : List (String × String)) :
    isOkE (chunk_payload hash compress payload eid cs comp ts skew attrs) =
      true ↔ (MIN_CHUNK_SIZE ≤ cs ∧ cs ≤ MAX_CHUNK_SIZE ∧ comp = "gzip") := by
  unfold chunk_payload
  split_ifs with h1 h2
  · constructor
    · intro h; exact absurd h (by decide)
    · rintro ⟨ha, hb, _⟩; omega
  · constructor
    · intro h; exact absurd h (by decide)
    · rintro ⟨_, _, hc⟩; exact absurd hc h2
  · constructor
    · intro _
      exact ⟨by omega, by omega, not_not.mp h2⟩
    · intro _; rfl

/-- C10: for the empty payload, `chunk_payload` returns the empty chunk
list (the single loop iteration hits an empty slice and breaks), so an
empty event never yields any chunk at all. -/
theorem chunk_payload_empty (hash compress : Bytes → Bytes) (eid : String)
    (cs : Nat) (ts : Nat) (skew : Int) (attrs : List (String × String))
    (hmin : MIN_CHUNK_SIZE ≤ cs) (hmax : cs ≤ MAX_CHUNK_SIZE) :
    chunk_payload hash compress [] eid cs "gzip" ts skew attrs =
      Except.ok [] := by
  have hcs : 0 < cs := Nat.lt_of_lt_of_le (by decide) hmin
  have h1 : ¬(cs < MIN_CHUNK_SIZE ∨ MAX_CHUNK_SIZE < cs) := by omega
  unfold chunk_payload
  rw [if_neg h1, if_neg (fun h => h rfl)]
  have hd : (List.length ([] : Bytes) + cs - 1) / cs = 0 :=
    Nat.div_eq_of_lt (by simp only [List.length_nil]; omega)
  rw [hd]
  simp [chunkLoop, sliceAt]

/-- Closed witness for C10 at the default chunk size. -/
theorem chunk_payload_empty_witness :
    chunk_payload (fun _ => []) (fun x => x) [] "e" DEFAULT_CHUNK_SIZE "gzip"
        0 0 [] = Except.ok [] :=
  chunk_payload_empty (fun _ => []) (fun x => x) "e" DEFAULT_CHUNK_SIZE 0 0 []
    (by decide) (by decide)

/-- C2: for every payload and permitted chunk size, decompressing the
chunk payloads produced by `chunk_payload` in ascending `chunk_index`
order and concatenating them (the store's assembly procedure) yields the
original payload, and the hash carried as `event_hash` by every chunk is
the hash of that assembled payload. -/
theorem chunk_roundtrip (hash compress decompress : Bytes → Bytes)
    (payload : Bytes) (eid : String) (cs : Nat) (ts : Nat) (skew : Int)
    (attrs : List (String × String)) (chunks : List EventChunk)
    (hrt : ∀ x, decompress (compress x) = x)
    (hmin : MIN_CHUNK_SIZE ≤ cs) (hmax : cs ≤ MAX_CHUNK_SIZE)
    (hchunks : chunk_payload hash compress payload eid cs "gzip" ts skew
      attrs = Except.ok chunks) :
    assembleChunks decompress chunks = Except.ok payload ∧
      ∀ ch ∈ chunks, ch.eventHash = hash payload := by
  have hcs : 0 < cs := Nat.lt_of_lt_of_le (by decide) hmin
  have h1 : ¬(cs < MIN_CHUNK_SIZE ∨ MAX_CHUNK_SIZE < cs) := by omega
  unfold chunk_payload at hchunks
  rw [if_neg h1, if_neg (fun h => h rfl)] at hchunks
  have hloop := (Except.ok.inj hchunks).symm
  generalize ht : max 1 ((payload.length + cs - 1) / cs) = total at hloop
  constructor
  · have hsorted : chunks.Pairwise (fun a b => a.chunkIndex ≤ b.chunkIndex) := by
      rw [hloop]
      exact chunkLoop_sorted hash compress payload eid cs "gzip" (hash payload)
        total ts skew attrs total 0
    have hcomp : ∀ ch ∈ chunks, ch.compression = "gzip" := by
      intro ch hch
      rw [hloop] at hch
      exact chunkLoop_compression hash compress payload eid cs "gzip"
        (hash payload) total ts skew attrs total 0 ch hch
    have hlen : payload.length ≤ (0 + total) * cs := by
      rw [Nat.zero_add]
      exact Nat.le_trans (ceil_mul_ge payload.length cs hcs)
        (Nat.mul_le_mul_right cs
          (Nat.le_trans (Nat.le_max_right 1 _) (Nat.le_of_eq ht)))
    have hj := chunkLoop_join hash compress decompress payload eid cs
      (hash payload) total ts skew attrs hrt hcs total 0 hlen
    rw [Nat.zero_mul, List.drop_zero] at hj
    unfold assembleChunks
    rw [List.Sorted.insertionSort_eq hsorted]
    rw [decompressAll_ok decompress chunks hcomp]
    show Except.ok (chunks.map (fun ch => decompress ch.payload)).flatten =
      Except.ok payload
    rw [hloop, hj]
  · intro ch hch
    rw [hloop] at hch
    exact chunkLoop_eventHash hash compress payload eid cs "gzip"
      (hash payload) total ts skew attrs total 0 ch hch

/-- Closed witness for C2: a three-byte payload with identity
compression and a length-tag hash assembles back to itself. -/
theorem chunk_roundtrip_witness :
    assembleChunks (fun x => x)
        [{ eventId := "e", chunkIndex := 0, chunkCount := 1,
           compression := "gzip", payload := [7, 8, 9], chunkHash := [3],
           eventHash := [3], logicalTimestampMs := 0, clockSkewMs := 0,
           attributes := [] }] = Except.ok [7, 8, 9] :=
  (chunk_roundtrip (fun l => [l.length]) (fun x => x) (fun x => x) [7, 8, 9]
    "e" MIN_CHUNK_SIZE 0 0 [] _ (fun _ => rfl) (by decide) (by decide)
    rfl).1

/-! ### Bearer-token comparison (`pipeline/common/auth.py`) -/

/-- `constant_time_compare` from `auth.py`: a `None` on either side is
rejected outright; otherwise the strings are compared (the constant-time
character of `hmac.compare_digest` is a timing property with no
functional content, so the model keeps plain equality). -/
def constant_time_compare (expected received : Option String) : Bool :=
  match expected, received with
  | none, _ => false
  | _, none => false
  | some e, some r => decide (e = r)

/-- C8 counterexample: the pair `(None, None)` is an equal pair of
inputs on which `constant_time_compare` nevertheless returns `false`,
refuting the claim that every equal pair yields `true`. -/
theorem constant_time_compare_counterexample :
    (none : Option String) = none ∧
      constant_time_compare none none = false :=
  ⟨rfl, rfl⟩

/-- C8 amended: `constant_time_compare` returns `true` exactly when the
two inputs are equal and non-`None`; every differing pair, and every
pair containing a `None` (even the equal pair `(None, None)`), yields
`false`. -/
theorem constant_time_compare_spec (e r : Option String) :
    constant_time_compare e r = true ↔ (e = r ∧ e ≠ none) := by
  cases e with
  | none => simp [constant_time_compare]
  | some a =>
    cases r with
    | none => simp [constant_time_compare]
    | some b => simp [constant_time_compare]

/-! ### Wire messages (`pipeline/common/messages.py`) -/

/-- `Heartbeat` dataclass from `messages.py`. -/
structure Heartbeat where
  softwareVersion : String
  lastCommittedSequence : Nat
  queueDepth : Nat
  clockSkewMs : Int
deriving DecidableEq, Repr

/-- `ChunkRequest` dataclass from `messages.py`. -/
structure ChunkRequest where
  sinceSequence : Nat
  maxChunks : Nat
  maxBytes : Nat
  windowId : String
  maxInFlight : Nat
deriving DecidableEq, Repr

/-- `ChunkAck` dataclass from `messages.py`. -/
structure ChunkAck where
  windowId : String
  committedSequences : List Nat
  resetWindow : Bool
deriving DecidableEq, Repr

/-- `CommandResponse` dataclass from `messages.py`. -/
structure CommandResponse where
  commandId : String
  success : Bool
  message : String
deriving DecidableEq, Repr

/-- The `body` of a `ControlEnvelope`: one of the four message
variants. -/
inductive ControlBody where
  | heartbeat (h : Heartbeat)
  | chunkRequest (r : ChunkRequest)
  | chunkAck (a : ChunkAck)
  | commandResponse (c : CommandResponse)
deriving DecidableEq, Repr

/-- The `body_type` discriminator string matching each variant. -/
def bodyTag : ControlBody → String
  | ControlBody.heartbeat _ => "heartbeat"
  | ControlBody.chunkRequest _ => "chunk_request"
  | ControlBody.chunkAck _ => "chunk_ack"
  | ControlBody.commandResponse _ => "command_response"

/-- `ControlEnvelope` dataclass from `messages.py`.  `sent_at` and
`capabilities` default to `None` in the code, hence the `Option`
types; `body_type` is stored separately from `body`. -/
structure ControlEnvelope where
  sensorId : String
  bodyType : String
  body : ControlBody
  sentAt : Option String
  capabilities : Option (List String)
  schemaVersion : String
deriving DecidableEq, Repr

/-- The JSON object produced by `ControlEnvelope.to_dict`: every key is
always present, `sent_at` and `capabilities` as concrete values.  The
nested body dict carries exactly the variant's fields, so it is
represented by the variant itself. -/
structure ControlEnvelopeDict where
  schemaVersion : String
  sensorId : String
  sentAt : String
  capabilities : List String
  bodyType : String
  body : ControlBody
deriving DecidableEq, Repr

/-- `ControlEnvelope.to_dict`: `sent_at` falls back to the current time
(`self.sent_at or _utcnow_iso()`, so also for the empty string, which is
falsy in Python) and `capabilities` falls back to the empty list
(`list(self.capabilities or [])`). `now` stands for `_utcnow_iso()`. -/
def ControlEnvelope.to_dict (e : ControlEnvelope) (now : String) :
    ControlEnvelopeDict :=
  { schemaVersion := e.schemaVersion
    sensorId := e.sensorId
    sentAt := match e.sentAt with
      | some s => if s = "" then now else s
      | none => now
    capabilities := match e.capabilities with
      | some caps => caps
      | none => []
    bodyType := e.bodyType
    body := e.body }

/-- `ControlEnvelope.from_dict`: dispatches on `body_type`, raising for
an unknown discriminator, and raising (`TypeError` from `cls(**data)`)
when the nested body dict does not have the dispatched variant's
fields. The decoded envelope always carries `sent_at = some _` and
`capabilities = some _` since `to_dict` output has the keys. -/
def ControlEnvelope.from_dict (d : ControlEnvelopeDict) :
    Except String ControlEnvelope :=
  let parsed : Except String ControlBody :=
    if d.bodyType = "heartbeat" then
      match d.body with
      | ControlBody.heartbeat h => Except.ok (ControlBody.heartbeat h)
      | _ => Except.error "TypeError"
    else if d.bodyType = "chunk_request" then
      match d.body with
      | ControlBody.chunkRequest r => Except.ok (ControlBody.chunkRequest r)
      | _ => Except.error "TypeError"
    else if d.bodyType = "chunk_ack" then
      match d.body with
      | ControlBody.chunkAck a => Except.ok (ControlBody.chunkAck a)
      | _ => Except.error "TypeError"
    else if d.bodyType = "command_response" then
      match d.body with
      | ControlBody.commandResponse c =>
        Except.ok (ControlBody.commandResponse c)
      | _ => Except.error "TypeError"
    else Except.error "Unknown control body_type"
  match parsed with
  | Except.ok b => Except.ok
      { sensorId := d.sensorId
        bodyType := d.bodyType
        body := b
        sentAt := some d.sentAt
        capabilities := some d.capabilities
        schemaVersion := d.schemaVersion }
  | Except.error e => Except.error e

/-- Decidable equality of fallible results, for concrete evaluation. -/
instance {ε α : Type} [DecidableEq ε] [DecidableEq α] :
    DecidableEq (Except ε α) := fun x y =>
  match x, y with
  | Except.ok a, Except.ok b =>
    if h : a = b then Decidable.isTrue (by rw [h])
    else Decidable.isFalse (fun hh => h (Except.ok.inj hh))
  | Except.error a, Except.error b =>
    if h : a = b then Decidable.isTrue (by rw [h])
    else Decidable.isFalse (fun hh => h (Except.error.inj hh))
  | Except.ok _, Except.error _ =>
    Decidable.isFalse (fun hh => Except.noConfusion hh)
  | Except.error _, Except.ok _ =>
    Decidable.isFalse (fun hh => Except.noConfusion hh)

/-- C7 counterexample: an envelope with `capabilities = None` does not
survive the roundtrip — `to_dict` encodes the missing capabilities as
`[]` and `from_dict` decodes them as `some []`, so decode of encode is
not the identity on it (the same happens to `sent_at = None`). -/
theorem envelope_roundtrip_counterexample :
    ControlEnvelope.from_dict (ControlEnvelope.to_dict
        { sensorId := "s1", bodyType := "heartbeat",
          body := ControlBody.heartbeat
            { softwareVersion := "v1", lastCommittedSequence := 3,
              queueDepth := 2, clockSkewMs := 0 },
          sentAt := some "2026-01-01T00:00:00Z", capabilities := none,
          schemaVersion := "1.0" } "2026-02-02T00:00:00Z") ≠
      Except.ok
        { sensorId := "s1", bodyType := "heartbeat",
          body := ControlBody.heartbeat
            { softwareVersion := "v1", lastCommittedSequence := 3,
              queueDepth := 2, clockSkewMs := 0 },
          sentAt := some "2026-01-01T00:00:00Z", capabilities := none,
          schemaVersion := "1.0" } := by
  decide

/-- C7 amended: decode of encode is the identity on every envelope of
any of the four body variants whose `body_type` string matches its body
variant, whose `sent_at` is a non-empty string (rather than `None` or
`""`, which `to_dict` replaces by the current time), and whose
`capabilities` is an actual list (rather than `None`, which `to_dict`
encodes as the empty list). -/
theorem envelope_roundtrip (now : String) (e : ControlEnvelope)
    (htag : e.bodyType = bodyTag e.body)
    (hsent : ∃ s, e.sentAt = some s ∧ s ≠ "")
    (hcaps : ∃ caps, e.capabilities = some caps) :
    ControlEnvelope.from_dict (e.to_dict now) = Except.ok e := by
  obtain ⟨s, hs, hne⟩ := hsent
  obtain ⟨caps, hc⟩ := hcaps
  obtain ⟨sid, btype, body, sentAt, capsF, sv⟩ := e
  simp only at htag hs hc
  subst htag hs hc
  cases body <;>
    simp [ControlEnvelope.to_dict, ControlEnvelope.from_dict, bodyTag, hne]

/-- Concrete envelope used by the C7 witness. -/
def envW : ControlEnvelope :=
  { sensorId := "s1", bodyType := "chunk_ack",
    body := ControlBody.chunkAck
      { windowId := "w1", committedSequences := [1, 2], resetWindow := false },
    sentAt := some "2026-01-01T00:00:00Z", capabilities := some ["gzip"],
    schemaVersion := "1.0" }

/-- Closed witness for C7 (amended): a concrete chunk-ack envelope
roundtrips. -/
theorem envelope_roundtrip_witness :
    ControlEnvelope.from_dict (ControlEnvelope.to_dict envW "X") =
      Except.ok envW :=
  envelope_roundtrip "X" envW rfl
    ⟨"2026-01-01T00:00:00Z", rfl, by decide⟩ ⟨["gzip"], rfl⟩

/-! ### Durable sensor queue (`pipeline/sensor/queue.py`) -/

/-- `QueuedChunk` dataclass from `queue.py`: an `EventChunk` plus the
queue-assigned `sequence` and `created_at`. -/
structure QueuedChunk where
  sequence : Nat
  eventId : String
  chunkIndex : Nat
  chunkCount : Nat
  compression : String
  payload : Bytes
  chunkHash : Bytes
  eventHash : Bytes
  createdAt : Int
  logicalTimestampMs : Nat
  clockSkewMs : Int
  attributes : List (String × String)
deriving DecidableEq, Repr

/-- The queue's `chunks` table, modelled as the list of its rows. -/
abbrev QueueRows := List QueuedChunk

/-- The candidate rows fetched by `peek_window`'s SQL query:
`WHERE sequence > since ORDER BY sequence ASC LIMIT max_chunks * 2`. -/
def peekCandidates (rows : QueueRows) (sinceSequence maxChunks : Nat) :
    QueueRows :=
  ((rows.filter (fun r => sinceSequence < r.sequence)).insertionSort
    (fun a b => a.sequence ≤ b.sequence)).take (maxChunks * 2)

/-- The accumulation loop of `peek_window`: `winLen` and `total` track
`len(window)` and the summed compressed payload bytes so far; the first
row is exempt from the byte limit (`payload_bytes > max_bytes and not
window`). -/
def peekLoop (maxChunks maxBytes : Nat) :
    Nat → Nat → QueueRows → QueueRows
  | _, _, [] => []
  | winLen, total, r :: rest =>
    let payloadBytes := r.payload.length
    let limitOk :=
      if maxBytes < payloadBytes ∧ winLen = 0 then true
      else total + payloadBytes ≤ maxBytes
    if maxChunks ≤ winLen ∨ ¬limitOk then []
    else r :: peekLoop maxChunks maxBytes (winLen + 1) (total + payloadBytes)
      rest

/-- `DurableQueue.peek_window` from `queue.py`: fetch the candidate rows
and run the windowing loop.  Peek is a pure read of the rows. -/
def peek_window (rows : QueueRows) (sinceSequence maxChunks maxBytes : Nat) :
    QueueRows :=
  peekLoop maxChunks maxBytes 0 0 (peekCandidates rows sinceSequence maxChunks)

/-- Instance making `insertionSort` by `sequence` well-behaved. -/
instance : IsTotal QueuedChunk (fun a b => a.sequence ≤ b.sequence) :=
  ⟨fun a b => Nat.le_total a.sequence b.sequence⟩

instance : IsTrans QueuedChunk (fun a b => a.sequence ≤ b.sequence) :=
  ⟨fun _ _ _ hab hbc => Nat.le_trans hab hbc⟩

/-- Total compressed payload bytes of a row list. -/
def totalBytes (rows : QueueRows) : Nat :=
  (rows.map (fun r => r.payload.length)).sum

theorem peekLoop_isPre (mc mb : Nat) :
    ∀ l winLen total, ∃ rest, peekLoop mc mb winLen total l ++ rest = l := by
  intro l
  induction l with
  | nil => intro _ _; exact ⟨[], rfl⟩
  | cons r tl ih =>
    intro winLen total
    rw [peekLoop]
    by_cases hguard : mc ≤ winLen ∨ ¬(if mb < r.payload.length ∧ winLen = 0
        then true else total + r.payload.length ≤ mb) = true
    · exact ⟨r :: tl, by rw [if_pos hguard]; rfl⟩
    · rw [if_neg hguard]
      obtain ⟨rest, hrest⟩ := ih (winLen + 1) (total + r.payload.length)
      exact ⟨rest, by rw [List.cons_append, hrest]⟩

theorem peekLoop_length (mc mb : Nat) :
    ∀ l winLen total,
      (peekLoop mc mb winLen total l).length + winLen ≤ max mc winLen := by
  intro l
  induction l with
  | nil => intro winLen total; simp [peekLoop, Nat.le_max_right]
  | cons r tl ih =>
    intro winLen total
    rw [peekLoop]
    by_cases hguard : mc ≤ winLen ∨ ¬(if mb < r.payload.length ∧ winLen = 0
        then true else total + r.payload.length ≤ mb) = true
    · rw [if_pos hguard]
      simp [Nat.le_max_right]
    · rw [if_neg hguard]
      have hlt : winLen < mc := by
        rcases not_or.mp hguard with ⟨h1, _⟩
        omega
      have := ih (winLen + 1) (total + r.payload.length)
      simp only [List.length_cons]
      omega

theorem peekLoop_bytes_ge (mc mb : Nat) :
    ∀ l winLen total, winLen ≠ 0 → mb < total →
      peekLoop mc mb winLen total l = [] := by
  intro l winLen total hwl hmb
  cases l with
  | nil => rfl
  | cons r tl =>
    have hlim : (if mb < r.payload.length ∧ winLen = 0 then true
        else (total + r.payload.length ≤ mb : Bool)) = false := by
      rw [if_neg (fun hc => hwl hc.2)]
      simp only [decide_eq_false_iff_not]
      omega
    rw [peekLoop, hlim]
    simp

theorem peekLoop_bytes (mc mb : Nat) :
    ∀ l winLen total, winLen ≠ 0 → total ≤ mb →
      total + totalBytes (peekLoop mc mb winLen total l) ≤ mb := by
  intro l
  induction l with
  | nil => intro winLen total _ h; simpa [peekLoop, totalBytes] using h
  | cons r tl ih =>
    intro winLen total hwl htot
    rw [peekLoop]
    by_cases hguard : mc ≤ winLen ∨ ¬(if mb < r.payload.length ∧ winLen = 0
        then true else total + r.payload.length ≤ mb) = true
    · rw [if_pos hguard]; simpa [totalBytes] using htot
    · rw [if_neg hguard]
      rcases not_or.mp hguard with ⟨_, h2⟩
      have hlim := not_not.mp h2
      rw [if_neg (fun hc => hwl hc.2)] at hlim
      have hok : total + r.payload.length ≤ mb := of_decide_eq_true hlim
      have := ih (winLen + 1) (total + r.payload.length) (by omega) hok
      simp only [totalBytes, List.map_cons, List.sum_cons] at *
      omega

theorem peekLoop_first_limit (mb : Nat) (r : QueuedChunk) :
    (if mb < r.payload.length ∧ (0 : Nat) = 0 then true
      else (0 + r.payload.length ≤ mb : Bool)) = true := by
  by_cases h : mb < r.payload.length
  · rw [if_pos ⟨h, rfl⟩]
  · rw [if_neg (fun hc => h hc.1)]
    simp only [decide_eq_true_eq]
    omega

theorem peekLoop_top_bytes (mc mb : Nat) (cand : QueueRows) :
    totalBytes (peekLoop mc mb 0 0 cand) ≤ mb ∨
      (peekLoop mc mb 0 0 cand).length = 1 := by
  cases cand with
  | nil => left; simp [peekLoop, totalBytes]
  | cons r tl =>
    rw [peekLoop]
    by_cases hguard : mc ≤ 0 ∨ ¬(if mb < r.payload.length ∧ (0 : Nat) = 0
        then true else (0 + r.payload.length ≤ mb : Bool)) = true
    · rw [if_pos hguard]; left; simp [totalBytes]
    · rw [if_neg hguard]
      by_cases hover : mb < r.payload.length
      · right
        have hrest := peekLoop_bytes_ge mc mb tl 1 (0 + r.payload.length)
          (by omega) (by omega)
        rw [hrest]
        rfl
      · left
        have hrest := peekLoop_bytes mc mb tl 1 (0 + r.payload.length)
          (by omega) (by omega)
        simp only [totalBytes, List.map_cons, List.sum_cons, Nat.zero_add]
          at *
        omega

theorem peekLoop_stop (mc mb : Nat) :
    ∀ (l : QueueRows) (winLen total : Nat) (r' : QueuedChunk)
      (rest : QueueRows),
      winLen ≤ mc → (winLen = 0 → total = 0) →
      peekLoop mc mb winLen total l ++ r' :: rest = l →
      (peekLoop mc mb winLen total l).length + winLen = mc ∨
        ((winLen ≠ 0 ∨ peekLoop mc mb winLen total l ≠ []) ∧
          mb < total + totalBytes (peekLoop mc mb winLen total l) +
            r'.payload.length) := by
  intro l
  induction l with
  | nil =>
    intro winLen total r' rest _ _ happ
    exact absurd happ (by simp [peekLoop])
  | cons x tl ih =>
    intro winLen total r' rest hle h0 happ
    by_cases hguard : mc ≤ winLen ∨ ¬(if mb < x.payload.length ∧ winLen = 0
        then true else total + x.payload.length ≤ mb) = true
    · rw [peekLoop, if_pos hguard] at happ ⊢
      rw [List.nil_append] at happ
      obtain ⟨hr, -⟩ := List.cons.inj happ
      rcases hguard with hg | hg
      · left
        simp only [List.length_nil]
        omega
      · right
        have hwl : winLen ≠ 0 := by
          intro hz
          have ht := h0 hz
          apply hg
          rw [hz, ht]
          exact peekLoop_first_limit mb x
        have hover : ¬(total + x.payload.length ≤ mb) := by
          intro hle2
          apply hg
          by_cases hc : mb < x.payload.length ∧ winLen = 0
          · rw [if_pos hc]
          · rw [if_neg hc]
            exact decide_eq_true hle2
        refine ⟨Or.inl hwl, ?_⟩
        have hx : x.payload.length = r'.payload.length := by rw [hr]
        simp only [totalBytes, List.map_nil, List.sum_nil]
        omega
    · rw [peekLoop, if_neg hguard] at happ ⊢
      rw [List.cons_append] at happ
      obtain ⟨-, htl⟩ := List.cons.inj happ
      have hlt : winLen < mc := by
        rcases not_or.mp hguard with ⟨h1, _⟩
        omega
      have hrec := ih (winLen + 1) (total + x.payload.length) r' rest
        (by omega) (by omega) htl
      rcases hrec with h | ⟨_, h⟩
      · left
        simp only [List.length_cons]
        omega
      · right
        refine ⟨Or.inr (List.cons_ne_nil x _), ?_⟩
        simp only [totalBytes, List.map_cons, List.sum_cons] at h ⊢
        omega

theorem peekLoop_progress (mc mb : Nat) (r : QueuedChunk) (tl : QueueRows)
    (hmc : 1 ≤ mc) : peekLoop mc mb 0 0 (r :: tl) ≠ [] := by
  rw [peekLoop]
  rw [if_neg]
  · exact List.cons_ne_nil _ _
  · rintro (h | h)
    · omega
    · exact h (peekLoop_first_limit mb r)

/-- C4: `peek_window` returns a prefix of the candidate rows (so in
ascending sequence order, all with `sequence > since_sequence`), takes
at most `max_chunks` rows, keeps the summed compressed payload size
within `max_bytes` except that a single oversize first row may stand
alone, returns at least one row whenever a qualifying row exists and
`max_chunks ≥ 1` even when that row alone exceeds `max_bytes` (progress
guarantee), and stops *only* at a stopping condition: whenever a
candidate row is left untaken, either the window already holds
`max_chunks` rows or the window is nonempty and adding that next row
would push the total compressed bytes over `max_bytes`.  Peek is a pure
function of the rows: the queue is not mutated. -/
theorem peek_window_spec (rows : QueueRows) (since mc mb : Nat) :
    (∃ rest, peek_window rows since mc mb ++ rest =
      peekCandidates rows since mc) ∧
    (∀ r ∈ peek_window rows since mc mb, since < r.sequence) ∧
    (peek_window rows since mc mb).Pairwise
      (fun a b => a.sequence ≤ b.sequence) ∧
    (peek_window rows since mc mb).length ≤ mc ∧
    (totalBytes (peek_window rows since mc mb) ≤ mb ∨
      (peek_window rows since mc mb).length = 1) ∧
    (peekCandidates rows since mc ≠ [] → 1 ≤ mc →
      peek_window rows since mc mb ≠ []) ∧
    (∀ (r' : QueuedChunk) (rest : QueueRows),
      peek_window rows since mc mb ++ r' :: rest =
        peekCandidates rows since mc →
      (peek_window rows since mc mb).length = mc ∨
        (peek_window rows since mc mb ≠ [] ∧
          mb < totalBytes (peek_window rows since mc mb) +
            r'.payload.length)) := by
  have hpre := peekLoop_isPre mc mb (peekCandidates rows since mc) 0 0
  have hsub : List.Sublist (peek_window rows since mc mb)
      (peekCandidates rows since mc) := by
    obtain ⟨rest, hrest⟩ := hpre
    have hrest' : peek_window rows since mc mb ++ rest =
        peekCandidates rows since mc := hrest
    exact hrest' ▸ List.sublist_append_left (peek_window rows since mc mb) rest
  have hcandmem : ∀ r ∈ peekCandidates rows since mc, since < r.sequence := by
    intro r hr
    have hr2 := List.take_subset _ _ hr
    rw [List.mem_insertionSort] at hr2
    have := List.of_mem_filter hr2
    exact of_decide_eq_true this
  have hcandsorted : (peekCandidates rows since mc).Pairwise
      (fun a b => a.sequence ≤ b.sequence) := by
    refine List.Pairwise.sublist (List.take_sublist _ _) ?_
    exact List.sorted_insertionSort _ _
  refine ⟨hpre, ?_, ?_, ?_, ?_, ?_, ?_⟩
  · intro r hr
    exact hcandmem r (hsub.subset hr)
  · exact List.Pairwise.sublist hsub hcandsorted
  · have := peekLoop_length mc mb (peekCandidates rows since mc) 0 0
    have hm : max mc 0 = mc := Nat.max_zero mc
    rw [peek_window]
    omega
  · exact peekLoop_top_bytes mc mb (peekCandidates rows since mc)
  · intro hne hmc
    rw [peek_window]
    obtain ⟨r, tl, hcons⟩ := List.exists_cons_of_ne_nil hne
    rw [hcons]
    exact peekLoop_progress mc mb r tl hmc
  · intro r' rest happ
    have hstop := peekLoop_stop mc mb (peekCandidates rows since mc) 0 0 r'
      rest (Nat.zero_le mc) (fun _ => rfl) happ
    rcases hstop with h | ⟨hne, h⟩
    · left
      have h' : (peek_window rows since mc mb).length + 0 = mc := h
      omega
    · right
      have h' : mb < 0 + totalBytes (peek_window rows since mc mb) +
          r'.payload.length := h
      refine ⟨?_, by omega⟩
      rcases hne with h0 | hw
      · exact absurd rfl h0
      · exact hw

/-- Concrete oversize row used by the C4 witness. -/
def rowW : QueuedChunk :=
  { sequence := 1, eventId := "e", chunkIndex := 0, chunkCount := 1,
    compression := "gzip", payload := [1, 2, 3, 4, 5], chunkHash := [],
    eventHash := [], createdAt := 0, logicalTimestampMs := 0,
    clockSkewMs := 0, attributes := [] }

/-- Two-byte row used by the C4 witness's stopping instance. -/
def rowAW : QueuedChunk :=
  { sequence := 1, eventId := "e", chunkIndex := 0, chunkCount := 2,
    compression := "gzip", payload := [1, 2], chunkHash := [],
    eventHash := [], createdAt := 0, logicalTimestampMs := 0,
    clockSkewMs := 0, attributes := [] }

/-- Three-byte row used by the C4 witness's stopping instance. -/
def rowBW : QueuedChunk :=
  { sequence := 2, eventId := "e", chunkIndex := 1, chunkCount := 2,
    compression := "gzip", payload := [3, 4, 5], chunkHash := [],
    eventHash := [], createdAt := 0, logicalTimestampMs := 0,
    clockSkewMs := 0, attributes := [] }

/-- Closed witness for C4: with `max_bytes = 1` and a five-byte first
row, `peek_window` still returns that row (progress guarantee); and
with rows of 2 and 3 bytes under `max_bytes = 4` the untaken second row
is justified by the stopping rule. -/
theorem peek_window_spec_witness :
    peek_window [rowW] 0 3 1 ≠ [] ∧
      ((peek_window [rowAW, rowBW] 0 3 4).length = 3 ∨
        (peek_window [rowAW, rowBW] 0 3 4 ≠ [] ∧
          4 < totalBytes (peek_window [rowAW, rowBW] 0 3 4) +
            rowBW.payload.length)) :=
  ⟨(peek_window_spec [rowW] 0 3 1).2.2.2.2.2.1 (by decide) (by decide),
   (peek_window_spec [rowAW, rowBW] 0 3 4).2.2.2.2.2.2 rowBW []
     (by decide)⟩

/-! ### Dispatcher (`pipeline/sensor/dispatch.py`) -/

/-- Pointwise update of a finitely-readable map. -/
def updMap {κ β : Type} [DecidableEq κ] (m : κ → Option β) (k : κ)
    (v : Option β) : κ → Option β :=
  fun k' => if k' = k then v else m k'

/-- `DurableQueue.delete_sequences` from `queue.py`: with an empty
sequence list the method returns without touching the store; otherwise
`DELETE FROM chunks WHERE sequence IN (...)`. -/
def delete_sequences (rows : QueueRows) (seqs : List Nat) : QueueRows :=
  if seqs = [] then rows
  else rows.filter (fun r => ¬r.sequence ∈ seqs)

/-- Combined sensor-side state touched by `ChunkDispatcher.handle_ack`:
the durable queue rows plus the dispatcher's window map
(`window_id → set of sequences`, a `WindowState` per window), in-flight
map (`sequence → window_id`) and `last_ack_sequence`. -/
structure DispatchState where
  queue : QueueRows
  windows : String → Option (Finset Nat)
  inFlight : Nat → Option String
  lastAck : Nat

/-- `ChunkDispatcher._release_sequence`: pop the in-flight entry (a
falsy window id — `None` or `""` — stops further work after the pop),
discard the sequence from its window's set, and drop the window record
once its set is empty. -/
def releaseSequence (st : DispatchState) (seq : Nat) : DispatchState :=
  match st.inFlight seq with
  | none => st
  | some windowId =>
    let st1 := { st with inFlight := updMap st.inFlight seq none }
    if windowId = "" then st1
    else
      match st.windows windowId with
      | none => st1
      | some ws =>
        let ws' := ws.erase seq
        if ws' = ∅ then
          { st1 with windows := updMap st.windows windowId none }
        else { st1 with windows := updMap st.windows windowId (some ws') }

/-- The deduplicated ascending `committed_sequences` computed first in
`handle_ack`: `sorted(set(int(seq) for seq in ack.committed_sequences))`. -/
def committedOf (l : List Nat) : List Nat :=
  List.insertionSort (fun a b => a ≤ b) l.dedup

/-- The `reset_window` step of `handle_ack`: drop the window record
(only the descriptor; in-flight entries are untouched). -/
def ackReset (st : DispatchState) (ack : ChunkAck) : DispatchState :=
  if ack.resetWindow then
    { st with windows := updMap st.windows ack.windowId none }
  else st

/-- `ChunkDispatcher.handle_ack`: dedupe + sort the acked sequences,
optionally drop the reset window, delete the acked rows from the queue,
release each sequence, and advance `last_ack_sequence` to
`max(last_ack_sequence, committed_sequences[-1])` when any sequence was
acked.  (The `{deleted, remaining}` stats returned by the Python method
are observational only and not part of the state.) -/
def handle_ack (st : DispatchState) (ack : ChunkAck) : DispatchState :=
  let committed := committedOf ack.committedSequences
  let st1 := { ackReset st ack with
    queue := delete_sequences (ackReset st ack).queue committed }
  let st2 := committed.foldl releaseSequence st1
  if committed.isEmpty then st2
  else { st2 with lastAck := max st2.lastAck (committed.getLastD 0) }

theorem mem_committedOf (l : List Nat) (s : Nat) :
    s ∈ committedOf l ↔ s ∈ l := by
  simp [committedOf, List.mem_insertionSort, List.mem_dedup]

theorem committedOf_eq_nil (l : List Nat) : committedOf l = [] ↔ l = [] := by
  constructor
  · intro h
    have hlen := (List.perm_insertionSort (fun a b => a ≤ b) l.dedup).length_eq
    rw [committedOf] at h
    rw [h] at hlen
    have : l.dedup = [] := List.length_eq_zero.mp hlen.symm
    exact (List.dedup_eq_nil l).mp this
  · intro h
    rw [h]
    rfl

theorem releaseSequence_queue (st : DispatchState) (seq : Nat) :
    (releaseSequence st seq).queue = st.queue := by
  unfold releaseSequence
  cases hif : st.inFlight seq with
  | none => rfl
  | some wid =>
    by_cases hw : wid = ""
    · simp [hw]
    · simp only [hw, if_false]
      cases hws : st.windows wid with
      | none => rfl
      | some ws =>
        by_cases he : ws.erase seq = ∅ <;> simp [he]

theorem releaseSequence_lastAck (st : DispatchState) (seq : Nat) :
    (releaseSequence st seq).lastAck = st.lastAck := by
  unfold releaseSequence
  cases hif : st.inFlight seq with
  | none => rfl
  | some wid =>
    by_cases hw : wid = ""
    · simp [hw]
    · simp only [hw, if_false]
      cases hws : st.windows wid with
      | none => rfl
      | some ws =>
        by_cases he : ws.erase seq = ∅ <;> simp [he]

theorem releaseSequence_inFlight (st : DispatchState) (t s : Nat) :
    (releaseSequence st t).inFlight s =
      if s = t then none else st.inFlight s := by
  unfold releaseSequence
  cases hif : st.inFlight t with
  | none =>
    by_cases hst : s = t
    · rw [if_pos hst, hst, hif]
    · rw [if_neg hst]
  | some wid =>
    have hupd : updMap st.inFlight t none s =
        if s = t then none else st.inFlight s := rfl
    by_cases hw : wid = ""
    · simp only [hw, if_true]
      exact hupd
    · simp only [hw, if_false]
      cases hws : st.windows wid with
      | none => exact hupd
      | some ws =>
        by_cases he : ws.erase t = ∅ <;> simp only [he, if_true, if_false] <;>
          exact hupd

theorem releaseSequence_of_none (st : DispatchState) (s : Nat)
    (h : st.inFlight s = none) : releaseSequence st s = st := by
  unfold releaseSequence
  rw [h]

theorem releaseSequence_windows_none (st : DispatchState) (t : Nat)
    (w : String) (h : st.windows w = none) :
    (releaseSequence st t).windows w = none := by
  unfold releaseSequence
  cases hif : st.inFlight t with
  | none => exact h
  | some wid =>
    by_cases hw : wid = ""
    · simpa [hw] using h
    · simp only [hw, if_false]
      cases hws : st.windows wid with
      | none => exact h
      | some ws =>
        have hne : w ≠ wid := by
          intro heq
          rw [heq, hws] at h
          exact Option.noConfusion h
        by_cases he : ws.erase t = ∅ <;>
          simp only [he, if_true, if_false] <;>
          (show updMap st.windows wid _ w = none) <;>
          rw [updMap, if_neg hne] <;> exact h

theorem foldl_release_queue (l : List Nat) :
    ∀ st : DispatchState, (l.foldl releaseSequence st).queue = st.queue := by
  induction l with
  | nil => intro st; rfl
  | cons a tl ih =>
    intro st
    rw [List.foldl_cons, ih, releaseSequence_queue]

theorem foldl_release_lastAck (l : List Nat) :
    ∀ st : DispatchState, (l.foldl releaseSequence st).lastAck = st.lastAck := by
  induction l with
  | nil => intro st; rfl
  | cons a tl ih =>
    intro st
    rw [List.foldl_cons, ih, releaseSequence_lastAck]

theorem foldl_release_inFlight (l : List Nat) :
    ∀ (st : DispatchState) (s : Nat),
      (l.foldl releaseSequence st).inFlight s =
        if s ∈ l then none else st.inFlight s := by
  induction l with
  | nil => intro st s; simp
  | cons a tl ih =>
    intro st s
    rw [List.foldl_cons, ih]
    by_cases hmem : s ∈ tl
    · simp [hmem]
    · by_cases hsa : s = a
      · simp [hsa, hmem, releaseSequence_inFlight]
      · simp [hmem, hsa, releaseSequence_inFlight]

theorem foldl_release_id (l : List Nat) :
    ∀ st : DispatchState, (∀ s ∈ l, st.inFlight s = none) →
      l.foldl releaseSequence st = st := by
  induction l with
  | nil => intro st _; rfl
  | cons a tl ih =>
    intro st h
    rw [List.foldl_cons,
      releaseSequence_of_none st a (h a (List.mem_cons_self a tl))]
    exact ih st (fun s hs => h s (List.mem_cons_of_mem a hs))

theorem foldl_release_windows_none (l : List Nat) :
    ∀ (st : DispatchState) (w : String), st.windows w = none →
      (l.foldl releaseSequence st).windows w = none := by
  induction l with
  | nil => intro st w h; exact h
  | cons a tl ih =>
    intro st w h
    rw [List.foldl_cons]
    exact ih _ w (releaseSequence_windows_none st a w h)

theorem delete_sequences_idem (rows : QueueRows) (seqs : List Nat) :
    delete_sequences (delete_sequences rows seqs) seqs =
      delete_sequences rows seqs := by
  unfold delete_sequences
  by_cases h : seqs = []
  · simp [h]
  · simp only [h, if_false, List.filter_filter]
    congr 1
    funext r
    rw [Bool.and_self]

theorem mem_delete_sequences (rows : QueueRows) (seqs : List Nat)
    (r : QueuedChunk) (hr : r ∈ delete_sequences rows seqs) :
    ∀ s ∈ seqs, r.sequence ≠ s := by
  intro s hs heq
  unfold delete_sequences at hr
  have hne : seqs ≠ [] := by
    intro h
    rw [h] at hs
    exact List.not_mem_nil s hs
  rw [if_neg hne] at hr
  have := List.of_mem_filter hr
  rw [heq] at this
  simp [hs] at this

theorem getLastD_mem (l : List Nat) : ∀ d : Nat, l ≠ [] → l.getLastD d ∈ l := by
  induction l with
  | nil => intro d h; exact absurd rfl h
  | cons a tl ih =>
    intro d _
    rw [List.getLastD_cons]
    cases tl with
    | nil => simp
    | cons b tl2 =>
      exact List.mem_cons_of_mem a (ih a (List.cons_ne_nil b tl2))

theorem sorted_le_getLastD (l : List Nat) :
    ∀ d : Nat, l.Pairwise (fun a b => a ≤ b) →
      ∀ x ∈ l, x ≤ l.getLastD d := by
  induction l with
  | nil => intro d _ x hx; exact absurd hx (List.not_mem_nil x)
  | cons a tl ih =>
    intro d hp x hx
    rw [List.getLastD_cons]
    rcases List.mem_cons.mp hx with rfl | hx'
    · cases tl with
      | nil => simp
      | cons b tl2 =>
        have hmem := getLastD_mem (b :: tl2) x (List.cons_ne_nil b tl2)
        exact (List.pairwise_cons.mp hp).1 _ hmem
    · exact ih a (List.pairwise_cons.mp hp).2 x hx'

theorem ackReset_queue (st : DispatchState) (ack : ChunkAck) :
    (ackReset st ack).queue = st.queue := by
  unfold ackReset
  by_cases hr : ack.resetWindow <;> simp [hr]

theorem ackReset_lastAck (st : DispatchState) (ack : ChunkAck) :
    (ackReset st ack).lastAck = st.lastAck := by
  unfold ackReset
  by_cases hr : ack.resetWindow <;> simp [hr]

theorem ackReset_inFlight (st : DispatchState) (ack : ChunkAck) :
    (ackReset st ack).inFlight = st.inFlight := by
  unfold ackReset
  by_cases hr : ack.resetWindow <;> simp [hr]

theorem handle_ack_queue (st : DispatchState) (ack : ChunkAck) :
    (handle_ack st ack).queue =
      delete_sequences st.queue (committedOf ack.committedSequences) := by
  simp only [handle_ack]
  by_cases he : (committedOf ack.committedSequences).isEmpty = true
  · rw [if_pos he]
    simp only [foldl_release_queue, ackReset_queue]
  · rw [if_neg he]
    simp only [foldl_release_queue, ackReset_queue]

theorem handle_ack_lastAck (st : DispatchState) (ack : ChunkAck) :
    (handle_ack st ack).lastAck =
      if (committedOf ack.committedSequences).isEmpty then st.lastAck
      else max st.lastAck
        ((committedOf ack.committedSequences).getLastD 0) := by
  simp only [handle_ack]
  by_cases he : (committedOf ack.committedSequences).isEmpty = true
  · rw [if_pos he, if_pos he]
    simp only [foldl_release_lastAck, ackReset_lastAck]
  · rw [if_neg he, if_neg he]
    simp only [foldl_release_lastAck, ackReset_lastAck]

theorem handle_ack_inFlight (st : DispatchState) (ack : ChunkAck) (s : Nat) :
    (handle_ack st ack).inFlight s =
      if s ∈ committedOf ack.committedSequences then none
      else st.inFlight s := by
  simp only [handle_ack]
  by_cases he : (committedOf ack.committedSequences).isEmpty = true
  · rw [if_pos he]
    simp only [foldl_release_inFlight]
    rw [ackReset_inFlight]
  · rw [if_neg he]
    simp only [foldl_release_inFlight]
    rw [ackReset_inFlight]

theorem handle_ack_windows_reset (st : DispatchState) (ack : ChunkAck)
    (hr : ack.resetWindow = true) :
    (handle_ack st ack).windows ack.windowId = none := by
  have hbase : (ackReset st ack).windows ack.windowId = none := by
    unfold ackReset
    rw [if_pos hr]
    show updMap st.windows ack.windowId none ack.windowId = none
    rw [updMap, if_pos rfl]
  simp only [handle_ack]
  by_cases he : (committedOf ack.committedSequences).isEmpty = true
  · rw [if_pos he]
    exact foldl_release_windows_none _ _ _ hbase
  · rw [if_neg he]
    exact foldl_release_windows_none _ _ _ hbase

/-- C5: after `handle_ack`, no queue row carries an acked sequence, and
`last_ack_sequence` becomes the maximum of its previous value and the
largest committed sequence (and is unchanged when `committed_sequences`
is empty). -/
theorem handle_ack_spec (st : DispatchState) (ack : ChunkAck) :
    (∀ s ∈ ack.committedSequences, ∀ r ∈ (handle_ack st ack).queue,
      r.sequence ≠ s) ∧
    (ack.committedSequences = [] →
      (handle_ack st ack).lastAck = st.lastAck) ∧
    (ack.committedSequences ≠ [] → ∃ m, m ∈ ack.committedSequences ∧
      (∀ s ∈ ack.committedSequences, s ≤ m) ∧
      (handle_ack st ack).lastAck = max st.lastAck m) := by
  refine ⟨?_, ?_, ?_⟩
  · intro s hs r hr
    rw [handle_ack_queue] at hr
    exact mem_delete_sequences st.queue _ r hr s
      ((mem_committedOf ack.committedSequences s).mpr hs)
  · intro h
    have he : (committedOf ack.committedSequences).isEmpty = true := by
      rw [List.isEmpty_iff, committedOf_eq_nil]
      exact h
    rw [handle_ack_lastAck, if_pos he]
  · intro h
    have hne : committedOf ack.committedSequences ≠ [] := by
      intro hnil
      exact h ((committedOf_eq_nil ack.committedSequences).mp hnil)
    have he : ¬(committedOf ack.committedSequences).isEmpty = true := by
      rw [List.isEmpty_iff]
      exact hne
    refine ⟨(committedOf ack.committedSequences).getLastD 0, ?_, ?_, ?_⟩
    · exact (mem_committedOf ack.committedSequences _).mp
        (getLastD_mem (committedOf ack.committedSequences) 0 hne)
    · intro s hs
      exact sorted_le_getLastD (committedOf ack.committedSequences) 0
        (List.sorted_insertionSort _ _) s
        ((mem_committedOf ack.committedSequences s).mpr hs)
    · rw [handle_ack_lastAck, if_neg he]

/-- Concrete dispatcher state used by the C5 witness. -/
def stW : DispatchState :=
  { queue := [rowW], windows := fun _ => none, inFlight := fun _ => none,
    lastAck := 0 }

/-- Concrete ack used by the C5 witness: commit sequence 2. -/
def ackW : ChunkAck :=
  { windowId := "w1", committedSequences := [2], resetWindow := false }

/-- Closed witness for C5 at a concrete state and ack. -/
theorem handle_ack_spec_witness : (handle_ack stW ackW).lastAck = 2 := by
  obtain ⟨m, hm, _, hl⟩ := (handle_ack_spec stW ackW).2.2 (by decide)
  have hm' : m ∈ [2] := hm
  have hm2 : m = 2 := List.mem_singleton.mp hm'
  rw [hl, hm2]
  decide

/-- Fixpoint criterion for `handle_ack`: a state untouched by the reset,
delete, release and last-ack steps is returned unchanged. -/
theorem handle_ack_fixed (st' : DispatchState) (ack : ChunkAck)
    (h1 : ackReset st' ack = st')
    (h2 : delete_sequences st'.queue (committedOf ack.committedSequences) =
      st'.queue)
    (h3 : ∀ s ∈ committedOf ack.committedSequences, st'.inFlight s = none)
    (h4 : ¬(committedOf ack.committedSequences).isEmpty = true →
      max st'.lastAck ((committedOf ack.committedSequences).getLastD 0) =
        st'.lastAck) :
    handle_ack st' ack = st' := by
  simp only [handle_ack]
  rw [h1, h2]
  have hself : { st' with queue := st'.queue } = st' := rfl
  rw [hself]
  have hfold : (committedOf ack.committedSequences).foldl releaseSequence st' =
      st' := foldl_release_id _ st' h3
  rw [hfold]
  by_cases he : (committedOf ack.committedSequences).isEmpty = true
  · rw [if_pos he]
  · rw [if_neg he, h4 he]

/-- C6: applying the same `ChunkAck` twice yields the same queue
contents, window map, in-flight map and `last_ack_sequence` as applying
it once — the second `handle_ack` is a no-op on the whole dispatcher
state. -/
theorem handle_ack_idempotent (st : DispatchState) (ack : ChunkAck) :
    handle_ack (handle_ack st ack) ack = handle_ack st ack := by
  apply handle_ack_fixed
  · unfold ackReset
    by_cases hr : ack.resetWindow = true
    · rw [if_pos hr]
      have hw : (handle_ack st ack).windows ack.windowId = none :=
        handle_ack_windows_reset st ack hr
      have hupd : updMap (handle_ack st ack).windows ack.windowId none =
          (handle_ack st ack).windows := by
        funext k
        rw [updMap]
        by_cases hk : k = ack.windowId
        · rw [if_pos hk, hk, hw]
        · rw [if_neg hk]
      rw [hupd]
    · rw [if_neg hr]
  · rw [handle_ack_queue, delete_sequences_idem]
  · intro s hs
    rw [handle_ack_inFlight, if_pos hs]
  · intro he
    rw [handle_ack_lastAck, if_neg he]
    rw [Nat.max_assoc, Nat.max_self]

/-! ### Server chunk store (`pipeline/server/store.py`) -/

/-- `DataChunk` dataclass from `messages.py` (the wire form ingested by
the server). -/
structure DataChunk where
  sensorId : String
  eventId : String
  sequence : Nat
  chunkIndex : Nat
  chunkCount : Nat
  compression : String
  payload : Bytes
  chunkSha256 : Bytes
  eventSha256 : Bytes
  createdAt : String
  logicalTimestampMs : Nat
  clockSkewMs : Int
  attributes : List (String × String)
  schemaVersion : String
deriving DecidableEq, Repr

/-- A row of the server `chunks` table (primary key
`(sensor_id, sequence)`). -/
structure ChunkRow where
  sensorId : String
  sequence : Nat
  eventId : String
  chunkIndex : Nat
  chunkCount : Nat
  compression : String
  payload : Bytes
  chunkSha256 : Bytes
  eventSha256 : Bytes
  createdAt : String
  logicalTimestampMs : Nat
  clockSkewMs : Int
  attributes : List (String × String)
deriving DecidableEq, Repr

/-- A row of the server `events` table (primary key
`(sensor_id, event_id)`). -/
structure EventRow where
  sensorId : String
  eventId : String
  chunkCount : Nat
  eventSha256 : Bytes
  receivedChunks : Nat
  logicalTimestampMs : Nat
  clockSkewMs : Int
  createdAt : Int
  updatedAt : Int
  completedAt : Option Int
deriving DecidableEq, Repr

/-- The `ChunkStore` state: both tables plus the retention setting. -/
structure Store where
  chunks : List ChunkRow
  events : List EventRow
  retentionSeconds : Int
deriving DecidableEq, Repr

/-- `IngestResult` dataclass from `store.py`. -/
structure IngestResult where
  stored : Bool
  duplicate : Bool
  sequence : Nat
  eventId : String
  sensorId : String
  logicalTimestampMs : Nat
  eventComplete : Bool
  assembledPayload : Option Bytes
deriving DecidableEq, Repr

/-- The dedupe lookup `SELECT 1 FROM chunks WHERE sensor_id = ? AND
sequence = ?`. -/
def findChunk (st : Store) (sensorId : String) (sequence : Nat) :
    Option ChunkRow :=
  st.chunks.find? (fun r =>
    decide (r.sensorId = sensorId ∧ r.sequence = sequence))

/-- The event lookup `SELECT ... FROM events WHERE sensor_id = ? AND
event_id = ?`. -/
def findEvent (st : Store) (sensorId eventId : String) : Option EventRow :=
  st.events.find? (fun e =>
    decide (e.sensorId = sensorId ∧ e.eventId = eventId))

/-- `ChunkStore._event_complete`: `bool(row and row[0] is not None)`. -/
def eventComplete (st : Store) (sensorId eventId : String) : Bool :=
  match findEvent st sensorId eventId with
  | some e => e.completedAt.isSome
  | none => false

/-- In-place `UPDATE events SET ... WHERE sensor_id = ? AND
event_id = ?`. -/
def updateEventRow (st : Store) (sensorId eventId : String)
    (f : EventRow → EventRow) : Store :=
  { st with events := st.events.map (fun e =>
      if e.sensorId = sensorId ∧ e.eventId = eventId then f e else e) }

/-- The rows feeding `_assemble_event`: `WHERE sensor_id = ? AND
event_id = ? ORDER BY chunk_index ASC`. -/
def eventChunkRows (st : Store) (sensorId eventId : String) :
    List ChunkRow :=
  (st.chunks.filter (fun r =>
    decide (r.sensorId = sensorId ∧ r.eventId = eventId))).insertionSort
    (fun a b => a.chunkIndex ≤ b.chunkIndex)

/-- Decompression loop of `_assemble_event`. -/
def decompressRows (decompress : Bytes → Bytes) :
    List ChunkRow → Except String (List Bytes)
  | [] => Except.ok []
  | r :: rest =>
    if r.compression = "gzip" then
      match decompressRows decompress rest with
      | Except.ok parts => Except.ok (decompress r.payload :: parts)
      | Except.error e => Except.error e
    else Except.error "unsupported compression"

/-- `ChunkStore._assemble_event`. -/
def assemble_event (decompress : Bytes → Bytes) (st : Store)
    (sensorId eventId : String) : Except String Bytes :=
  match decompressRows decompress (eventChunkRows st sensorId eventId) with
  | Except.ok parts => Except.ok parts.flatten
  | Except.error e => Except.error e

/-- Test for `completed_at IS NOT NULL AND completed_at < cutoff`. -/
def completedBefore (e : EventRow) (cutoff : Int) : Bool :=
  match e.completedAt with
  | some t => decide (t < cutoff)
  | none => false

/-- `ChunkStore._prune_locked`: the first DELETE removes old completed
events; the second then deletes chunks whose `sequence` appears in a
join against the (already pruned) events table. -/
def prune (st : Store) (now : Int) : Store :=
  let cutoff := now - st.retentionSeconds
  let events' := st.events.filter (fun e => !completedBefore e cutoff)
  let doomed := (st.chunks.filter (fun c => events'.any (fun e =>
    decide (c.sensorId = e.sensorId ∧ c.eventId = e.eventId) &&
      completedBefore e cutoff))).map (fun c => c.sequence)
  { st with events := events',
            chunks := st.chunks.filter (fun c =>
              !doomed.contains c.sequence) }

/-- The chunk row inserted for an ingested `DataChunk`. -/
def chunkRowOf (c : DataChunk) : ChunkRow :=
  { sensorId := c.sensorId, sequence := c.sequence, eventId := c.eventId,
    chunkIndex := c.chunkIndex, chunkCount := c.chunkCount,
    compression := c.compression, payload := c.payload,
    chunkSha256 := c.chunkSha256, eventSha256 := c.eventSha256,
    createdAt := c.createdAt, logicalTimestampMs := c.logicalTimestampMs,
    clockSkewMs := c.clockSkewMs, attributes := c.attributes }

/-- Completion step of `ingest` (from `event_complete = received >=
chunk.chunk_count` to the prune): stamp `completed_at`, assemble, verify
the assembled hash, and prune.  An error carries the store as mutated
so far (the autocommit connection has already persisted each
statement). -/
def ingestFinish (hash decompress : Bytes → Bytes) (st2 : Store)
    (c : DataChunk) (now : Int) (received : Nat) :
    Except (String × Store) (IngestResult × Store) :=
  if c.chunkCount ≤ received then
    let st3 := updateEventRow st2 c.sensorId c.eventId (fun e =>
      { e with completedAt := some now, updatedAt := now })
    match assemble_event decompress st3 c.sensorId c.eventId with
    | Except.ok assembled =>
      if hash assembled ≠ c.eventSha256 then
        Except.error ("event payload hash mismatch", st3)
      else Except.ok
        ({ stored := true, duplicate := false, sequence := c.sequence,
           eventId := c.eventId, sensorId := c.sensorId,
           logicalTimestampMs := c.logicalTimestampMs,
           eventComplete := true, assembledPayload := some assembled },
         prune st3 now)
    | Except.error e => Except.error (e, st3)
  else Except.ok
    ({ stored := true, duplicate := false, sequence := c.sequence,
       eventId := c.eventId, sensorId := c.sensorId,
       logicalTimestampMs := c.logicalTimestampMs, eventComplete := false,
       assembledPayload := none },
     prune st2 now)

/-- The body of `ChunkStore.ingest` (the code inside and just before the
`with self._conn:` block), as a state-passing function: hash check,
compression check, dedupe, chunk insert, event upsert with integrity
checks, completion, prune.  The store was opened with
`isolation_level=None` — sqlite3 autocommit mode — so the `with
self._conn:` block never starts a transaction and each statement
persists the moment it runs; a raised `ValueError` is `Except.error`
carrying the store as mutated up to the raise. -/
def ingestBody (hash decompress : Bytes → Bytes) (st : Store)
    (c : DataChunk) (now : Int) :
    Except (String × Store) (IngestResult × Store) :=
  if c.compression = "gzip" then
    if hash c.payload ≠ c.chunkSha256 then
      Except.error ("chunk hash mismatch", st)
    else
      match findChunk st c.sensorId c.sequence with
      | some _ => Except.ok
          ({ stored := false, duplicate := true, sequence := c.sequence,
             eventId := c.eventId, sensorId := c.sensorId,
             logicalTimestampMs := c.logicalTimestampMs,
             eventComplete := eventComplete st c.sensorId c.eventId,
             assembledPayload := none }, st)
      | none =>
        let st1 : Store := { st with chunks := st.chunks ++ [chunkRowOf c] }
        match findEvent st1 c.sensorId c.eventId with
        | some ev =>
          if ev.eventSha256 ≠ c.eventSha256 then
            Except.error ("event hash mismatch", st1)
          else if ev.chunkCount ≠ c.chunkCount then
            Except.error ("chunk count mismatch", st1)
          else
            let received := ev.receivedChunks + 1
            let st2 := updateEventRow st1 c.sensorId c.eventId (fun e =>
              { e with receivedChunks := received, updatedAt := now })
            ingestFinish hash decompress st2 c now received
        | none =>
          let st2 : Store := { st1 with events := st1.events ++
            [{ sensorId := c.sensorId, eventId := c.eventId,
               chunkCount := c.chunkCount, eventSha256 := c.eventSha256,
               receivedChunks := 1,
               logicalTimestampMs := c.logicalTimestampMs,
               clockSkewMs := c.clockSkewMs, createdAt := now,
               updatedAt := now, completedAt := none }] }
          ingestFinish hash decompress st2 c now 1
  else Except.error ("unsupported compression", st)

/-- Outcome of one `ingest` call together with the store the caller is
left with. -/
inductive IngestOutcome where
  | done (result : IngestResult) (store : Store)
  | failed (msg : String) (store : Store)
deriving DecidableEq, Repr

/-- `ChunkStore.ingest` as observed by its caller.  Because the
connection is in autocommit mode (`isolation_level=None`), the `with
self._conn:` exit hooks — `commit()` on success, `rollback()` on
exception — are both no-ops: the caller of a failing ingest is left
with every write the body made before the raise. -/
def ingest (hash decompress : Bytes → Bytes) (st : Store) (c : DataChunk)
    (now : Int) : IngestOutcome :=
  match ingestBody hash decompress st c now with
  | Except.ok (r, st') => IngestOutcome.done r st'
  | Except.error (m, st') => IngestOutcome.failed m st'

/-- The store a caller observes after an ingest outcome. -/
def outcomeStore : IngestOutcome → Store
  | IngestOutcome.done _ s => s
  | IngestOutcome.failed _ s => s

/-- Whether the ingest raised. -/
def outcomeFailed : IngestOutcome → Bool
  | IngestOutcome.done _ _ => false
  | IngestOutcome.failed _ _ => true

/-- Stand-in hash used by concrete store witnesses: tags a byte string
with its length. -/
def hashW : Bytes → Bytes := fun l => [l.length % 256]

/-- Identity stand-in for gzip decompression in concrete witnesses. -/
def idB : Bytes → Bytes := fun x => x

/-- Existing chunk row used by the C3 store. -/
def rowDupW : ChunkRow :=
  { sensorId := "s1", sequence := 1, eventId := "e1", chunkIndex := 0,
    chunkCount := 2, compression := "gzip", payload := [1, 2],
    chunkSha256 := [2], eventSha256 := [7], createdAt := "t",
    logicalTimestampMs := 0, clockSkewMs := 0, attributes := [] }

/-- Store already holding `(sensor_id, sequence) = ("s1", 1)`. -/
def storeDupW : Store :=
  { chunks := [rowDupW], events := [], retentionSeconds := 259200 }

/-- A replay of `("s1", 1)` whose payload hash does not match its
`chunk_sha256`. -/
def badDupW : DataChunk :=
  { sensorId := "s1", eventId := "e1", sequence := 1, chunkIndex := 0,
    chunkCount := 2, compression := "gzip", payload := [1, 2],
    chunkSha256 := [0], eventSha256 := [7], createdAt := "t",
    logicalTimestampMs := 0, clockSkewMs := 0, attributes := [],
    schemaVersion := "1.0" }

/-- C3 counterexample: a `DataChunk` whose `(sensor_id, sequence)` pair
already exists but whose payload hash mismatches is not answered with
`stored=false, duplicate=true` — the hash check runs before the dedupe
lookup and `ingest` raises instead of returning an `IngestResult`. -/
theorem ingest_duplicate_counterexample :
    (findChunk storeDupW "s1" 1).isSome = true ∧
      outcomeFailed (ingest hashW idB storeDupW badDupW 0) = true := by
  decide

/-- A faithful replay of `("s1", 1)`: identical bytes, matching hash. -/
def goodDupW : DataChunk :=
  { sensorId := "s1", eventId := "e1", sequence := 1, chunkIndex := 0,
    chunkCount := 2, compression := "gzip", payload := [1, 2],
    chunkSha256 := [2], eventSha256 := [7], createdAt := "t",
    logicalTimestampMs := 0, clockSkewMs := 0, attributes := [],
    schemaVersion := "1.0" }

/-- C3 amended: for every `DataChunk` that passes the gzip compression
and payload hash checks and whose `(sensor_id, sequence)` pair already
exists in the store, `ingest` returns `stored=false, duplicate=true`
with the cached completion flag and performs no mutation at all — the
returned store is the original one, so no chunk row is inserted and no
event row's `received_chunks` changes. -/
theorem ingest_duplicate (hash decompress : Bytes → Bytes) (st : Store)
    (c : DataChunk) (now : Int)
    (hcomp : c.compression = "gzip")
    (hhash : hash c.payload = c.chunkSha256)
    (hdup : (findChunk st c.sensorId c.sequence).isSome = true) :
    ingest hash decompress st c now = IngestOutcome.done
      { stored := false, duplicate := true, sequence := c.sequence,
        eventId := c.eventId, sensorId := c.sensorId,
        logicalTimestampMs := c.logicalTimestampMs,
        eventComplete := eventComplete st c.sensorId c.eventId,
        assembledPayload := none } st := by
  unfold ingest ingestBody
  rw [if_pos hcomp]
  rw [if_neg (fun hne => hne hhash)]
  obtain ⟨row, hrow⟩ := Option.isSome_iff_exists.mp hdup
  rw [hrow]

/-- Closed witness for C3 (amended): replaying a stored chunk yields the
duplicate result and the untouched store. -/
theorem ingest_duplicate_witness :
    ingest hashW idB storeDupW goodDupW 0 = IngestOutcome.done
      { stored := false, duplicate := true, sequence := 1,
        eventId := "e1", sensorId := "s1", logicalTimestampMs := 0,
        eventComplete := false, assembledPayload := none } storeDupW :=
  ingest_duplicate hashW idB storeDupW goodDupW 0 rfl (by decide) (by decide)

/-- Chunk row of event "e1" already stored before C1's failing input
arrives. -/
def rowEvW : ChunkRow :=
  { sensorId := "s1", sequence := 1, eventId := "e1", chunkIndex := 0,
    chunkCount := 2, compression := "gzip", payload := [1, 2],
    chunkSha256 := [2], eventSha256 := [7], createdAt := "t",
    logicalTimestampMs := 0, clockSkewMs := 0, attributes := [] }

/-- Event row of "e1" with one received chunk and event hash `[7]`. -/
def eventRowW : EventRow :=
  { sensorId := "s1", eventId := "e1", chunkCount := 2, eventSha256 := [7],
    receivedChunks := 1, logicalTimestampMs := 0, clockSkewMs := 0,
    createdAt := 0, updatedAt := 0, completedAt := none }

/-- Store holding one chunk and the event row of "e1". -/
def storeEvW : Store :=
  { chunks := [rowEvW], events := [eventRowW], retentionSeconds := 259200 }

/-- A second chunk of "e1" with a valid payload hash but an
`event_sha256` disagreeing with the stored event row. -/
def mismatchW : DataChunk :=
  { sensorId := "s1", eventId := "e1", sequence := 2, chunkIndex := 1,
    chunkCount := 2, compression := "gzip", payload := [3, 4],
    chunkSha256 := [2], eventSha256 := [8], createdAt := "t",
    logicalTimestampMs := 0, clockSkewMs := 0, attributes := [],
    schemaVersion := "1.0" }

/-- C1: the code contradicts the claim's (and the spec's) atomicity.
`sqlite3.connect(..., isolation_level=None)` puts the connection in
autocommit mode, where `with self._conn:` never opens a transaction and
its commit/rollback exit hooks are no-ops, so every statement persists
the moment it runs.  Ingesting a valid-hash chunk of an existing event
whose `event_sha256` disagrees with the event row makes `ingest` raise
`event hash mismatch` *after* the chunk-row INSERT has committed: the
store before the call holds no row `("s1", 2)`, yet the failing call
leaves one behind — the store is not left unchanged. -/
theorem ingest_failure_persists :
    outcomeFailed (ingest hashW idB storeEvW mismatchW 0) = true ∧
      findChunk storeEvW "s1" 2 = none ∧
      (findChunk (outcomeStore (ingest hashW idB storeEvW mismatchW 0))
        "s1" 2).isSome = true := by
  decide

end Pipeline
